import Mathlib

/-!
Verification of the `maloquacious/semver` Go package (src/semver.go and
src/commit_hash.go) against its natural-language specification.

The embedding is shallow: Go strings are modelled as Lean `String`
(identifiers extracted from them as `List Char`; Go's byte-wise string
comparison coincides with codepoint-wise comparison on valid UTF-8),
Go's `int` as `Int` (the comparator only compares, it never does
arithmetic, so the machine width is irrelevant except inside
`strconv.Atoi`, where the 64-bit range check is modelled explicitly).
-/

/-- Embeds the `Version` struct of src/semver.go: major, minor, patch
plus optional pre-release and build metadata strings. -/
structure Version where
  Major : Int
  Minor : Int
  Patch : Int
  PreRelease : String
  Build : String
deriving DecidableEq

/-- Numeric value of a list of decimal digit characters, most significant
first; models the accumulation loop inside Go's `strconv.ParseInt`. -/
def digitsVal (l : List Char) : Nat :=
  l.foldl (fun a c => 10 * a + (c.toNat - 48)) 0

/-- Embeds Go's `strconv.Atoi` (= `ParseInt(s, 10, 0)` with 64-bit `int`)
applied to an identifier, as an `Option`: an optional leading sign
followed by one or more ASCII decimal digits, with the value required to
fit in a signed 64-bit integer; any other input, and any out-of-range
value, yields `none` (Go returns a non-nil error in those cases). -/
def atoi (s : List Char) : Option Int :=
  match s with
  | [] => none
  | c :: rest =>
    let p : Int × List Char :=
      if c = '+' then (1, rest)
      else if c = '-' then (-1, rest)
      else (1, c :: rest)
    if p.2 = [] then none
    else if p.2.all Char.isDigit then
      let v : Int := p.1 * (digitsVal p.2 : Nat)
      if -(2 ^ 63) ≤ v ∧ v ≤ 2 ^ 63 - 1 then some v else none
    else none

/-- Three-way comparison of two Go `int`s, as written inline throughout
`Version.Compare` in src/semver.go (`if a < b { return -1 } else if a > b
{ return 1 }`). -/
def cmpInt (a b : Int) : Int :=
  if a < b then -1 else if a > b then 1 else 0

/-- Byte-wise three-way comparison of two strings (as character lists),
modelling Go's `<` / `>` on strings used for the lexical branch of the
pre-release walk in src/semver.go. -/
def cmpCharList : List Char → List Char → Int
  | [], [] => 0
  | [], _ :: _ => -1
  | _ :: _, [] => 1
  | a :: as, b :: bs =>
    if a < b then -1 else if b < a then 1 else cmpCharList as bs

/-- One step of the pre-release walk of `Version.Compare`
(src/semver.go lines 168-185): parse both identifiers with `Atoi`; both
numeric compares numerically, exactly one numeric makes the numeric side
lower, neither numeric compares lexically.  Result `0` means the loop
continues with the next index. -/
def cmpIdentifier (x y : List Char) : Int :=
  match atoi x, atoi y with
  | some n1, some n2 => cmpInt n1 n2
  | some _, none => -1
  | none, some _ => 1
  | none, none => cmpCharList x y

/-- The pre-release loop of `Version.Compare` (src/semver.go lines
167-192): walk the two identifier sequences index-by-index up to the
shorter length, deciding at the first non-zero step; if all common
indices tie, compare the lengths. -/
def cmpIdentifierList : List (List Char) → List (List Char) → Int
  | [], [] => 0
  | [], _ :: _ => -1
  | _ :: _, [] => 1
  | x :: xs, y :: ys =>
    if cmpIdentifier x y = 0 then cmpIdentifierList xs ys else cmpIdentifier x y

/-- Embeds Go's `strings.Split(s, ".")` on the character list of `s`:
splits around every occurrence of `'.'`; the empty string yields the
one-element list containing the empty identifier, exactly as Go does. -/
def splitDot : List Char → List (List Char)
  | [] => [[]]
  | c :: rest =>
    if c = '.' then [] :: splitDot rest
    else
      match splitDot rest with
      | [] => [[c]]
      | f :: r => (c :: f) :: r

/-- Embeds `Version.Compare` of src/semver.go (lines 137-195): staged
comparison of Major, Minor, Patch, then the pre-release rule; `Build` is
never consulted.  When both pre-release strings are empty neither guard
fires and the split of the empty string yields `[""]` on both sides,
which ties. -/
def Version.Compare (v v2 : Version) : Int :=
  if v.Major < v2.Major then -1
  else if v.Major > v2.Major then 1
  else if v.Minor < v2.Minor then -1
  else if v.Minor > v2.Minor then 1
  else if v.Patch < v2.Patch then -1
  else if v.Patch > v2.Patch then 1
  else if v.PreRelease = "" ∧ v2.PreRelease ≠ "" then 1
  else if v.PreRelease ≠ "" ∧ v2.PreRelease = "" then -1
  else cmpIdentifierList (splitDot v.PreRelease.data) (splitDot v2.PreRelease.data)

/-- Embeds `Version.Equal` of src/semver.go (lines 111-113): literal
equality of all five fields. -/
def Version.Equal (v v2 : Version) : Bool :=
  v.Major == v2.Major && v.Minor == v2.Minor && v.Patch == v2.Patch &&
    v.PreRelease == v2.PreRelease && v.Build == v2.Build

/-- Embeds `Version.Less` of src/semver.go: `Compare(v2) < 0`. -/
def Version.Less (v v2 : Version) : Bool :=
  v.Compare v2 < 0

example : Version.Compare ⟨1, 0, 0, "alpha", ""⟩ ⟨1, 0, 0, "", ""⟩ = -1 := by decide
example : Version.Compare ⟨1, 0, 0, "alpha.1", ""⟩ ⟨1, 0, 0, "alpha.beta", ""⟩ = -1 := by decide
example : Version.Compare ⟨1, 0, 0, "alpha", ""⟩ ⟨1, 0, 0, "alpha.1", ""⟩ = -1 := by decide
example : Version.Compare ⟨1, 0, 0, "beta.2", ""⟩ ⟨1, 0, 0, "beta.11", ""⟩ = -1 := by decide
example : Version.Compare ⟨1, 0, 0, "", "b1"⟩ ⟨1, 0, 0, "", "b2"⟩ = 0 := by decide
example : atoi "0123".data = some 123 := by decide
example : atoi "-7".data = some (-7) := by decide
example : atoi "1a".data = none := by decide
example : atoi "".data = none := by decide
example : atoi "9223372036854775807".data = some 9223372036854775807 := by decide
example : atoi "9223372036854775808".data = none := by decide
example : atoi "-9223372036854775808".data = some (-9223372036854775808) := by decide
example : splitDot "rc.1".data = ["rc".data, "1".data] := by decide
example : splitDot "".data = ["".data] := by decide

/-! ### Generic three-way comparator properties -/

/-- The three properties of an `Int`-valued three-way comparator that
together yield a total preorder: swapping the arguments negates the
result, a tie is a congruence for further comparisons, and the strict
part is transitive. -/
def IsCmp {α : Type} (c : α → α → Int) : Prop :=
  (∀ x y, c x y = -(c y x)) ∧
  (∀ x y, c x y = 0 → ∀ z, c x z = c y z) ∧
  (∀ x y z, c x y < 0 → c y z < 0 → c x z < 0)

theorem IsCmp.cmp_refl {α : Type} {c : α → α → Int} (h : IsCmp c) (x : α) :
    c x x = 0 := by
  have := h.1 x x; omega

theorem IsCmp.cmp_le_trans {α : Type} {c : α → α → Int} (h : IsCmp c) {x y z : α}
    (h1 : c x y ≤ 0) (h2 : c y z ≤ 0) : c x z ≤ 0 := by
  rcases lt_or_eq_of_le h1 with h1l | h1e
  · rcases lt_or_eq_of_le h2 with h2l | h2e
    · exact le_of_lt (h.2.2 x y z h1l h2l)
    · have hyx : c y x = c z x := h.2.1 y z h2e x
      have e1 := h.1 x z
      have e2 := h.1 x y
      omega
  · have := h.2.1 x y h1e z
    omega

theorem isCmp_ext {α : Type} {c d : α → α → Int} (h : ∀ x y, c x y = d x y)
    (hc : IsCmp c) : IsCmp d := by
  obtain ⟨h1, h2, h3⟩ := hc
  refine ⟨fun x y => ?_, fun x y hxy z => ?_, fun x y z hxy hyz => ?_⟩
  · rw [← h, ← h]; exact h1 x y
  · rw [← h, ← h]; exact h2 x y (by rw [h]; exact hxy) z
  · rw [← h]; exact h3 x y z (by rw [h]; exact hxy) (by rw [h]; exact hyz)

theorem isCmp_comap {α β : Type} {c : β → β → Int} (hc : IsCmp c) (f : α → β) :
    IsCmp (fun x y => c (f x) (f y)) :=
  ⟨fun x y => hc.1 (f x) (f y),
   fun x y h z => hc.2.1 (f x) (f y) h (f z),
   fun x y z h1 h2 => hc.2.2 (f x) (f y) (f z) h1 h2⟩

/-! ### Properties of the integer comparator -/

theorem cmpInt_lt_iff {a b : Int} : cmpInt a b < 0 ↔ a < b := by
  unfold cmpInt; split_ifs <;> omega

theorem cmpInt_eq_zero_iff {a b : Int} : cmpInt a b = 0 ↔ a = b := by
  unfold cmpInt
  split_ifs <;> (constructor <;> intro h <;> first | exact h.elim | omega)

theorem cmpInt_range (a b : Int) : cmpInt a b = -1 ∨ cmpInt a b = 0 ∨ cmpInt a b = 1 := by
  unfold cmpInt; split_ifs <;> omega

theorem isCmp_cmpInt : IsCmp cmpInt := by
  refine ⟨fun x y => ?_, fun x y h z => ?_, fun x y z h1 h2 => ?_⟩
  · unfold cmpInt; split_ifs <;> omega
  · rw [cmpInt_eq_zero_iff] at h; rw [h]
  · rw [cmpInt_lt_iff] at h1 h2 ⊢; omega

/-! ### Properties of the byte-wise string comparator -/

theorem cmpCharList_eq_zero_iff : ∀ l1 l2 : List Char, cmpCharList l1 l2 = 0 ↔ l1 = l2
  | [], [] => by simp [cmpCharList]
  | [], _ :: _ => by simp [cmpCharList]
  | _ :: _, [] => by simp [cmpCharList]
  | a :: as, b :: bs => by
    simp only [cmpCharList]
    split_ifs with h1 h2
    · refine iff_of_false (by decide) ?_
      rintro h; injection h with hh _; exact absurd hh (ne_of_lt h1)
    · refine iff_of_false (by decide) ?_
      rintro h; injection h with hh _; exact absurd hh.symm (ne_of_lt h2)
    · have hab : a = b := le_antisymm (not_lt.mp h2) (not_lt.mp h1)
      rw [cmpCharList_eq_zero_iff as bs, hab]
      simp

theorem cmpCharList_range : ∀ l1 l2 : List Char,
    cmpCharList l1 l2 = -1 ∨ cmpCharList l1 l2 = 0 ∨ cmpCharList l1 l2 = 1
  | [], [] => by simp [cmpCharList]
  | [], _ :: _ => by simp [cmpCharList]
  | _ :: _, [] => by simp [cmpCharList]
  | a :: as, b :: bs => by
    simp only [cmpCharList]
    split_ifs <;> first | omega | exact cmpCharList_range as bs

theorem cmpCharList_antisym : ∀ l1 l2 : List Char,
    cmpCharList l1 l2 = -(cmpCharList l2 l1)
  | [], [] => by simp [cmpCharList]
  | [], _ :: _ => by simp [cmpCharList]
  | _ :: _, [] => by simp [cmpCharList]
  | a :: as, b :: bs => by
    simp only [cmpCharList]
    rcases lt_trichotomy a b with h | h | h
    · simp [if_pos h, if_neg (lt_asymm h)]
    · subst h
      simp only [if_neg (lt_irrefl a)]
      exact cmpCharList_antisym as bs
    · simp [if_pos h, if_neg (lt_asymm h)]

theorem cmpCharList_trans : ∀ l1 l2 l3 : List Char,
    cmpCharList l1 l2 < 0 → cmpCharList l2 l3 < 0 → cmpCharList l1 l3 < 0
  | [], [], _, h1, _ => by simp [cmpCharList] at h1
  | [], _ :: _, [], _, h2 => by simp [cmpCharList] at h2
  | [], _ :: _, _ :: _, _, _ => by simp [cmpCharList]
  | _ :: _, [], _, h1, _ => by simp [cmpCharList] at h1
  | _ :: _, _ :: _, [], _, h2 => by simp [cmpCharList] at h2
  | a :: as, b :: bs, c :: cs, h1, h2 => by
    simp only [cmpCharList] at h1 h2 ⊢
    rcases lt_trichotomy a b with hab | hab | hab
    · rcases lt_trichotomy b c with hbc | hbc | hbc
      · simp [if_pos (lt_trans hab hbc)]
      · subst hbc; simp [if_pos hab]
      · simp only [if_pos hbc, if_neg (lt_asymm hbc)] at h2; exact absurd h2 (by decide)
    · subst hab
      rcases lt_trichotomy a c with hac | hac | hac
      · simp [if_pos hac]
      · subst hac
        simp only [if_neg (lt_irrefl a)] at h1 h2 ⊢
        exact cmpCharList_trans as bs cs h1 h2
      · simp only [if_pos hac, if_neg (lt_asymm hac)] at h2; exact absurd h2 (by decide)
    · simp only [if_pos hab, if_neg (lt_asymm hab)] at h1; exact absurd h1 (by decide)

theorem isCmp_cmpCharList : IsCmp cmpCharList := by
  refine ⟨cmpCharList_antisym, fun x y h z => ?_, cmpCharList_trans⟩
  rw [cmpCharList_eq_zero_iff] at h; rw [h]

/-! ### Properties of the per-identifier comparator -/

theorem cmpIdentifier_none_none {x y : List Char} (hx : atoi x = none)
    (hy : atoi y = none) : cmpIdentifier x y = cmpCharList x y := by
  unfold cmpIdentifier; rw [hx, hy]

theorem cmpIdentifier_none_some {x y : List Char} {b : Int} (hx : atoi x = none)
    (hy : atoi y = some b) : cmpIdentifier x y = 1 := by
  unfold cmpIdentifier; rw [hx, hy]

theorem cmpIdentifier_some_none {x y : List Char} {a : Int} (hx : atoi x = some a)
    (hy : atoi y = none) : cmpIdentifier x y = -1 := by
  unfold cmpIdentifier; rw [hx, hy]

theorem cmpIdentifier_some_some {x y : List Char} {a b : Int} (hx : atoi x = some a)
    (hy : atoi y = some b) : cmpIdentifier x y = cmpInt a b := by
  unfold cmpIdentifier; rw [hx, hy]

theorem cmpIdentifier_range (x y : List Char) :
    cmpIdentifier x y = -1 ∨ cmpIdentifier x y = 0 ∨ cmpIdentifier x y = 1 := by
  cases hx : atoi x <;> cases hy : atoi y
  · rw [cmpIdentifier_none_none hx hy]; exact cmpCharList_range x y
  · rw [cmpIdentifier_none_some hx hy]; omega
  · rw [cmpIdentifier_some_none hx hy]; omega
  · rw [cmpIdentifier_some_some hx hy]; exact cmpInt_range _ _

theorem cmpIdentifier_antisym (x y : List Char) :
    cmpIdentifier x y = -(cmpIdentifier y x) := by
  cases hx : atoi x <;> cases hy : atoi y
  · rw [cmpIdentifier_none_none hx hy, cmpIdentifier_none_none hy hx]
    exact cmpCharList_antisym x y
  · rw [cmpIdentifier_none_some hx hy, cmpIdentifier_some_none hy hx]; decide
  · rw [cmpIdentifier_some_none hx hy, cmpIdentifier_none_some hy hx]
  · rw [cmpIdentifier_some_some hx hy, cmpIdentifier_some_some hy hx]
    exact isCmp_cmpInt.1 _ _

theorem cmpIdentifier_cong {x y : List Char} (h : cmpIdentifier x y = 0)
    (z : List Char) : cmpIdentifier x z = cmpIdentifier y z := by
  cases hx : atoi x <;> cases hy : atoi y
  · rw [cmpIdentifier_none_none hx hy, cmpCharList_eq_zero_iff] at h
    subst h; rfl
  · rw [cmpIdentifier_none_some hx hy] at h; exact absurd h (by decide)
  · rw [cmpIdentifier_some_none hx hy] at h; exact absurd h (by decide)
  · rw [cmpIdentifier_some_some hx hy, cmpInt_eq_zero_iff] at h
    subst h
    cases hz : atoi z
    · rw [cmpIdentifier_some_none hx hz, cmpIdentifier_some_none hy hz]
    · rw [cmpIdentifier_some_some hx hz, cmpIdentifier_some_some hy hz]

theorem cmpIdentifier_trans (x y z : List Char) (h1 : cmpIdentifier x y < 0)
    (h2 : cmpIdentifier y z < 0) : cmpIdentifier x z < 0 := by
  cases hx : atoi x <;> cases hy : atoi y <;> cases hz : atoi z
  · rw [cmpIdentifier_none_none hx hy] at h1
    rw [cmpIdentifier_none_none hy hz] at h2
    rw [cmpIdentifier_none_none hx hz]
    exact cmpCharList_trans x y z h1 h2
  · rw [cmpIdentifier_none_none hx hy] at h1
    rw [cmpIdentifier_none_some hy hz] at h2
    exact absurd h2 (by decide)
  · rw [cmpIdentifier_none_some hx hy] at h1
    exact absurd h1 (by decide)
  · rw [cmpIdentifier_none_some hx hy] at h1
    exact absurd h1 (by decide)
  · rw [cmpIdentifier_some_none hx hz]; decide
  · rw [cmpIdentifier_none_some hy hz] at h2
    exact absurd h2 (by decide)
  · rw [cmpIdentifier_some_none hx hz]; decide
  · rw [cmpIdentifier_some_some hx hy] at h1
    rw [cmpIdentifier_some_some hy hz] at h2
    rw [cmpIdentifier_some_some hx hz]
    rw [cmpInt_lt_iff] at h1 h2 ⊢
    omega

theorem isCmp_cmpIdentifier : IsCmp cmpIdentifier :=
  ⟨cmpIdentifier_antisym, fun _ _ h z => cmpIdentifier_cong h z, cmpIdentifier_trans⟩

/-! ### Properties of the pre-release walk -/

theorem cmpIdentifierList_range : ∀ l1 l2 : List (List Char),
    cmpIdentifierList l1 l2 = -1 ∨ cmpIdentifierList l1 l2 = 0 ∨ cmpIdentifierList l1 l2 = 1
  | [], [] => by simp [cmpIdentifierList]
  | [], _ :: _ => by simp [cmpIdentifierList]
  | _ :: _, [] => by simp [cmpIdentifierList]
  | x :: xs, y :: ys => by
    simp only [cmpIdentifierList]
    split_ifs with h
    · exact cmpIdentifierList_range xs ys
    · exact cmpIdentifier_range x y

theorem cmpIdentifierList_antisym : ∀ l1 l2 : List (List Char),
    cmpIdentifierList l1 l2 = -(cmpIdentifierList l2 l1)
  | [], [] => by simp [cmpIdentifierList]
  | [], _ :: _ => by simp [cmpIdentifierList]
  | _ :: _, [] => by simp [cmpIdentifierList]
  | x :: xs, y :: ys => by
    simp only [cmpIdentifierList]
    have e := cmpIdentifier_antisym x y
    by_cases h : cmpIdentifier x y = 0
    · have h' : cmpIdentifier y x = 0 := by omega
      rw [if_pos h, if_pos h']
      exact cmpIdentifierList_antisym xs ys
    · have h' : ¬cmpIdentifier y x = 0 := by omega
      rw [if_neg h, if_neg h']
      exact e

theorem cmpIdentifierList_cong : ∀ l1 l2 : List (List Char),
    cmpIdentifierList l1 l2 = 0 → ∀ l3, cmpIdentifierList l1 l3 = cmpIdentifierList l2 l3
  | [], [], _, _ => rfl
  | [], _ :: _, h, _ => by simp [cmpIdentifierList] at h
  | _ :: _, [], h, _ => by simp [cmpIdentifierList] at h
  | x :: xs, y :: ys, h, l3 => by
    simp only [cmpIdentifierList] at h
    by_cases hxy : cmpIdentifier x y = 0
    · rw [if_pos hxy] at h
      cases l3 with
      | nil => rfl
      | cons z zs =>
        simp only [cmpIdentifierList]
        rw [cmpIdentifier_cong hxy z, cmpIdentifierList_cong xs ys h zs]
    · rw [if_neg hxy] at h
      exact absurd h hxy

theorem cmpIdentifierList_trans : ∀ l1 l2 l3 : List (List Char),
    cmpIdentifierList l1 l2 < 0 → cmpIdentifierList l2 l3 < 0 → cmpIdentifierList l1 l3 < 0
  | [], [], _, h1, _ => by simp [cmpIdentifierList] at h1
  | [], _ :: _, [], _, h2 => by simp [cmpIdentifierList] at h2
  | [], _ :: _, _ :: _, _, _ => by simp [cmpIdentifierList]
  | _ :: _, [], _, h1, _ => by simp [cmpIdentifierList] at h1
  | _ :: _, _ :: _, [], _, h2 => by simp [cmpIdentifierList] at h2
  | x :: xs, y :: ys, z :: zs, h1, h2 => by
    simp only [cmpIdentifierList] at h1 h2 ⊢
    by_cases hxy : cmpIdentifier x y = 0
    · rw [if_pos hxy] at h1
      by_cases hyz : cmpIdentifier y z = 0
      · rw [if_pos hyz] at h2
        have hxz : cmpIdentifier x z = 0 := by
          rw [cmpIdentifier_cong hxy z]; exact hyz
        rw [if_pos hxz]
        exact cmpIdentifierList_trans xs ys zs h1 h2
      · rw [if_neg hyz] at h2
        have e : cmpIdentifier x z = cmpIdentifier y z := cmpIdentifier_cong hxy z
        have hxz : ¬cmpIdentifier x z = 0 := by omega
        rw [if_neg hxz, e]
        exact h2
    · rw [if_neg hxy] at h1
      by_cases hyz : cmpIdentifier y z = 0
      · have e1 := cmpIdentifier_antisym x z
        have e2 := cmpIdentifier_antisym x y
        have e3 : cmpIdentifier y x = cmpIdentifier z x := cmpIdentifier_cong hyz x
        have hxz : ¬cmpIdentifier x z = 0 := by omega
        rw [if_neg hxz]
        omega
      · rw [if_neg hyz] at h2
        have hlt := cmpIdentifier_trans x y z h1 h2
        have hxz : ¬cmpIdentifier x z = 0 := by omega
        rw [if_neg hxz]
        exact hlt

theorem isCmp_cmpIdentifierList : IsCmp cmpIdentifierList :=
  ⟨cmpIdentifierList_antisym, fun _ _ h z => cmpIdentifierList_cong _ _ h z,
   cmpIdentifierList_trans⟩

/-! ### Decomposition of `Version.Compare` -/

/-- Sequential combination of two comparison results: the second one is
consulted only when the first ties; captures the short-circuiting
structure of `Version.Compare`. -/
def combine (c d : Int) : Int := if c = 0 then d else c

/-- The pre-release stage of `Version.Compare` (src/semver.go lines
156-192) in isolation: empty-versus-non-empty guards, then the
identifier walk on the dot-split sequences. -/
def cmpPre (p q : String) : Int :=
  if p = "" ∧ q ≠ "" then 1
  else if p ≠ "" ∧ q = "" then -1
  else cmpIdentifierList (splitDot p.data) (splitDot q.data)

theorem combine_cmpInt (a b d : Int) :
    combine (cmpInt a b) d = if a < b then -1 else if a > b then 1 else d := by
  unfold combine cmpInt
  by_cases h1 : a < b
  · rw [if_pos h1, if_pos h1, if_neg (by decide : ¬(-1 : Int) = 0)]
  · by_cases h2 : a > b
    · rw [if_neg h1, if_neg h1, if_pos h2, if_pos h2, if_neg (by decide : ¬(1 : Int) = 0)]
    · rw [if_neg h1, if_neg h1, if_neg h2, if_neg h2, if_pos rfl]

theorem compare_decompose (v w : Version) :
    Version.Compare v w =
      combine (cmpInt v.Major w.Major) (combine (cmpInt v.Minor w.Minor)
        (combine (cmpInt v.Patch w.Patch) (cmpPre v.PreRelease w.PreRelease))) := by
  rw [combine_cmpInt, combine_cmpInt, combine_cmpInt]
  rfl

theorem combine_range {c d : Int} (hc : c = -1 ∨ c = 0 ∨ c = 1)
    (hd : d = -1 ∨ d = 0 ∨ d = 1) :
    combine c d = -1 ∨ combine c d = 0 ∨ combine c d = 1 := by
  unfold combine; split_ifs <;> omega

theorem isCmp_combine {α : Type} {c d : α → α → Int} (hc : IsCmp c) (hd : IsCmp d) :
    IsCmp (fun x y => combine (c x y) (d x y)) := by
  refine ⟨fun x y => ?_, fun x y h z => ?_, fun x y z h1 h2 => ?_⟩
  · simp only [combine]
    have e := hc.1 x y
    by_cases h : c x y = 0
    · have h' : c y x = 0 := by omega
      rw [if_pos h, if_pos h']
      exact hd.1 x y
    · have h' : ¬c y x = 0 := by omega
      rw [if_neg h, if_neg h']
      exact e
  · simp only [combine] at h ⊢
    by_cases hcxy : c x y = 0
    · rw [if_pos hcxy] at h
      rw [hc.2.1 x y hcxy z, hd.2.1 x y h z]
    · rw [if_neg hcxy] at h
      exact absurd h hcxy
  · simp only [combine] at h1 h2 ⊢
    by_cases hcxy : c x y = 0
    · rw [if_pos hcxy] at h1
      by_cases hcyz : c y z = 0
      · rw [if_pos hcyz] at h2
        have hcxz : c x z = 0 := by rw [hc.2.1 x y hcxy z]; exact hcyz
        rw [if_pos hcxz]
        exact hd.2.2 x y z h1 h2
      · rw [if_neg hcyz] at h2
        have e : c x z = c y z := hc.2.1 x y hcxy z
        have hcxz : ¬c x z = 0 := by omega
        rw [if_neg hcxz, e]
        exact h2
    · rw [if_neg hcxy] at h1
      by_cases hcyz : c y z = 0
      · have e1 := hc.1 x z
        have e2 := hc.1 x y
        have e3 : c y x = c z x := hc.2.1 y z hcyz x
        have hcxz : ¬c x z = 0 := by omega
        rw [if_neg hcxz]
        omega
      · rw [if_neg hcyz] at h2
        have hlt := hc.2.2 x y z h1 h2
        have hcxz : ¬c x z = 0 := by omega
        rw [if_neg hcxz]
        exact hlt

theorem cmpPre_empty_empty : cmpPre "" "" = 0 := by decide

theorem isCmp_cmpPre : IsCmp cmpPre := by
  refine ⟨fun p q => ?_, fun p q h r => ?_, fun p q r h1 h2 => ?_⟩
  · by_cases hp : p = "" <;> by_cases hq : q = ""
    · subst hp; subst hq; decide
    · subst hp; simp [cmpPre, hq]
    · subst hq; simp [cmpPre, hp]
    · simp [cmpPre, hp, hq]
      exact cmpIdentifierList_antisym _ _
  · by_cases hp : p = "" <;> by_cases hq : q = ""
    · subst hp; subst hq; rfl
    · subst hp; simp [cmpPre, hq] at h
    · subst hq; simp [cmpPre, hp] at h
    · simp [cmpPre, hp, hq] at h
      by_cases hr : r = ""
      · subst hr; simp [cmpPre, hp, hq]
      · simp [cmpPre, hp, hq, hr]
        exact cmpIdentifierList_cong _ _ h _
  · by_cases hp : p = "" <;> by_cases hq : q = ""
    · subst hp; subst hq; exact absurd h1 (by decide)
    · subst hp; simp [cmpPre, hq] at h1
    · subst hq
      by_cases hr : r = ""
      · subst hr; exact absurd h2 (by decide)
      · simp [cmpPre, hr] at h2
    · simp [cmpPre, hp, hq] at h1
      by_cases hr : r = ""
      · subst hr; simp [cmpPre, hp]
      · simp [cmpPre, hq, hr] at h2
        simp [cmpPre, hp, hr]
        exact cmpIdentifierList_trans _ _ _ h1 h2

theorem isCmp_compare : IsCmp Version.Compare := by
  have h : IsCmp (fun v w : Version =>
      combine (cmpInt v.Major w.Major) (combine (cmpInt v.Minor w.Minor)
        (combine (cmpInt v.Patch w.Patch) (cmpPre v.PreRelease w.PreRelease)))) := by
    refine isCmp_combine (isCmp_comap isCmp_cmpInt Version.Major) ?_
    refine isCmp_combine (isCmp_comap isCmp_cmpInt Version.Minor) ?_
    exact isCmp_combine (isCmp_comap isCmp_cmpInt Version.Patch)
      (isCmp_comap isCmp_cmpPre Version.PreRelease)
  exact isCmp_ext (fun v w => (compare_decompose v w).symm) h

theorem cmpPre_range (p q : String) : cmpPre p q = -1 ∨ cmpPre p q = 0 ∨ cmpPre p q = 1 := by
  unfold cmpPre
  split_ifs
  · omega
  · omega
  · exact cmpIdentifierList_range _ _

theorem compare_range (v w : Version) :
    Version.Compare v w = -1 ∨ Version.Compare v w = 0 ∨ Version.Compare v w = 1 := by
  rw [compare_decompose]
  exact combine_range (cmpInt_range _ _)
    (combine_range (cmpInt_range _ _)
      (combine_range (cmpInt_range _ _) (cmpPre_range _ _)))

/-! ### Support lemmas for the individual claims -/

theorem compare_ignores_build (a b : Version) (B B' : String) :
    Version.Compare ⟨a.Major, a.Minor, a.Patch, a.PreRelease, B⟩
      ⟨b.Major, b.Minor, b.Patch, b.PreRelease, B'⟩ = Version.Compare a b := rfl

theorem compare_eq_zero_of_fields {a b : Version} (h1 : a.Major = b.Major)
    (h2 : a.Minor = b.Minor) (h3 : a.Patch = b.Patch)
    (h4 : a.PreRelease = b.PreRelease) : Version.Compare a b = 0 := by
  obtain ⟨aM, am, ap, apre, aB⟩ := a
  obtain ⟨bM, bm, bp, bpre, bB⟩ := b
  simp only at h1 h2 h3 h4
  subst h1; subst h2; subst h3; subst h4
  exact isCmp_compare.cmp_refl ⟨aM, am, ap, apre, aB⟩

theorem compare_normal_vs_pre (M m p : Int) (pre B B' : String) (h : pre ≠ "") :
    Version.Compare ⟨M, m, p, "", B⟩ ⟨M, m, p, pre, B'⟩ = 1 ∧
    Version.Compare ⟨M, m, p, pre, B'⟩ ⟨M, m, p, "", B⟩ = -1 := by
  constructor <;> simp [Version.Compare, lt_irrefl, h]

theorem compare_pre_pre (M m p : Int) (s t B B' : String) (hs : s ≠ "") (ht : t ≠ "") :
    Version.Compare ⟨M, m, p, s, B⟩ ⟨M, m, p, t, B'⟩ =
      cmpIdentifierList (splitDot s.data) (splitDot t.data) := by
  simp [Version.Compare, lt_irrefl, hs, ht]

theorem cmpIdentifierList_singleton (x y : List Char) :
    cmpIdentifierList [x] [y] = cmpIdentifier x y := by
  simp only [cmpIdentifierList]
  by_cases h : cmpIdentifier x y = 0
  · rw [if_pos h, h]
  · rw [if_neg h]

theorem splitDot_no_dot : ∀ l : List Char, l ≠ [] → '.' ∉ l → splitDot l = [l]
  | [], h, _ => absurd rfl h
  | c :: rest, _, hdot => by
    have hc : ¬c = '.' := by intro e; exact hdot (by simp [e])
    have hdot' : '.' ∉ rest := by intro hm; exact hdot (by simp [hm])
    simp only [splitDot, if_neg hc]
    by_cases hrest : rest = []
    · subst hrest; rfl
    · rw [splitDot_no_dot rest hrest hdot']

theorem atoi_digits : ∀ l : List Char, l ≠ [] → l.all Char.isDigit = true →
    atoi l = if digitsVal l < 2 ^ 63 then some ((digitsVal l : Nat) : Int) else none
  | [], hne, _ => absurd rfl hne
  | c :: rest, _, hdig => by
    have hc : c.isDigit = true := by
      have h := hdig; simp [List.all_cons] at h; exact h.1
    have hplus : ¬c = '+' := by intro e; subst e; exact absurd hc (by decide)
    have hminus : ¬c = '-' := by intro e; subst e; exact absurd hc (by decide)
    simp only [atoi, if_neg hplus, if_neg hminus, hdig]
    split_ifs with h1 h2 h2 <;> simp_all <;> omega

/-! ### Spec-side definitions (written from the spec's words, for the
refinement claims) -/

/-- Follows the spec's words for the walk over two non-empty identifier
sequences (§4.2 step 4): for each common index attempt to parse both
identifiers as integers; both parse → compare numerically; exactly one
parses → the numeric one is lower; neither parses → byte-wise lexical
comparison; all common indices tie → the shorter sequence is lower. -/
def walk_spec : List (List Char) → List (List Char) → Int
  | [], [] => 0
  | [], _ :: _ => -1
  | _ :: _, [] => 1
  | x :: xs, y :: ys =>
    match atoi x, atoi y with
    | some n1, some n2 =>
      if n1 < n2 then -1 else if n2 < n1 then 1 else walk_spec xs ys
    | some _, none => -1
    | none, some _ => 1
    | none, none =>
      if x = y then walk_spec xs ys else cmpCharList x y

/-- Follows the spec's words for step 4 of the staged algorithm: both
pre-release strings empty → tie; exactly one empty → the version with
the pre-release is strictly lower; both non-empty → walk the dot-split
identifier sequences. -/
def preRule_spec (p q : String) : Int :=
  if p = "" ∧ q = "" then 0
  else if p = "" then 1
  else if q = "" then -1
  else walk_spec (splitDot p.data) (splitDot q.data)

/-- Follows the spec's words for the staged algorithm (§4.2): Major,
Minor, Patch compared numerically in that order, short-circuiting at the
first inequality; if the triples tie, the pre-release rule applies. -/
def compare_spec (a b : Version) : Int :=
  if a.Major ≠ b.Major then cmpInt a.Major b.Major
  else if a.Minor ≠ b.Minor then cmpInt a.Minor b.Minor
  else if a.Patch ≠ b.Patch then cmpInt a.Patch b.Patch
  else preRule_spec a.PreRelease b.PreRelease

theorem combine_zero {c d : Int} (h : c = 0) : combine c d = d := by
  unfold combine; rw [if_pos h]

theorem combine_ne_zero {c d : Int} (h : ¬c = 0) : combine c d = c := by
  unfold combine; rw [if_neg h]

theorem walk_spec_eq : ∀ l1 l2, walk_spec l1 l2 = cmpIdentifierList l1 l2
  | [], [] => rfl
  | [], _ :: _ => rfl
  | _ :: _, [] => rfl
  | x :: xs, y :: ys => by
    simp only [walk_spec, cmpIdentifierList]
    cases hx : atoi x with
    | none =>
      cases hy : atoi y with
      | none =>
        rw [cmpIdentifier_none_none hx hy]
        by_cases hxy : x = y
        · subst hxy
          rw [if_pos rfl, if_pos ((cmpCharList_eq_zero_iff x x).mpr rfl)]
          exact walk_spec_eq xs ys
        · rw [if_neg hxy, if_neg (fun h0 => hxy ((cmpCharList_eq_zero_iff x y).mp h0))]
      | some b =>
        rw [cmpIdentifier_none_some hx hy, if_neg (by decide : ¬(1 : Int) = 0)]
    | some a =>
      cases hy : atoi y with
      | none =>
        rw [cmpIdentifier_some_none hx hy, if_neg (by decide : ¬(-1 : Int) = 0)]
      | some b =>
        rw [cmpIdentifier_some_some hx hy]
        show (if a < b then (-1 : Int) else if b < a then 1 else walk_spec xs ys) =
          if cmpInt a b = 0 then cmpIdentifierList xs ys else cmpInt a b
        rcases lt_trichotomy a b with h | h | h
        · have e : cmpInt a b = -1 := by unfold cmpInt; rw [if_pos h]
          rw [if_pos h, e, if_neg (by decide : ¬(-1 : Int) = 0)]
        · subst h
          have e : cmpInt a a = 0 := cmpInt_eq_zero_iff.mpr rfl
          rw [if_neg (lt_irrefl a), if_neg (lt_irrefl a), e, if_pos rfl]
          exact walk_spec_eq xs ys
        · have e : cmpInt a b = 1 := by
            unfold cmpInt; rw [if_neg (lt_asymm h), if_pos h]
          rw [if_neg (lt_asymm h), if_pos h, e, if_neg (by decide : ¬(1 : Int) = 0)]

theorem preRule_spec_eq (p q : String) : preRule_spec p q = cmpPre p q := by
  by_cases hp : p = "" <;> by_cases hq : q = ""
  · subst hp; subst hq; decide
  · subst hp; simp [preRule_spec, cmpPre, hq]
  · subst hq; simp [preRule_spec, cmpPre, hp]
  · simp [preRule_spec, cmpPre, hp, hq]
    exact walk_spec_eq _ _

theorem compare_spec_eq (a b : Version) : compare_spec a b = Version.Compare a b := by
  rw [compare_decompose]
  unfold compare_spec
  by_cases h1 : a.Major = b.Major
  · rw [if_neg (fun hne => hne h1), combine_zero (cmpInt_eq_zero_iff.mpr h1)]
    by_cases h2 : a.Minor = b.Minor
    · rw [if_neg (fun hne => hne h2), combine_zero (cmpInt_eq_zero_iff.mpr h2)]
      by_cases h3 : a.Patch = b.Patch
      · rw [if_neg (fun hne => hne h3), combine_zero (cmpInt_eq_zero_iff.mpr h3)]
        exact preRule_spec_eq _ _
      · rw [if_pos h3, combine_ne_zero (fun h0 => h3 (cmpInt_eq_zero_iff.mp h0))]
    · rw [if_pos h2, combine_ne_zero (fun h0 => h2 (cmpInt_eq_zero_iff.mp h0))]
  · rw [if_pos h1, combine_ne_zero (fun h0 => h1 (cmpInt_eq_zero_iff.mp h0))]

/-! ### Rendering -/

/-- Abbreviation for the Lean type modelling Go strings; lets the
renderers keep the source method name `String`. -/
abbrev GoStr := String

/-- Models Go's `fmt.Sprintf("%d", n)` on an `int`: decimal, non-padded,
with a leading minus sign for negative values. -/
def goItoa (n : Int) : GoStr := toString n

/-- Embeds `Version.String` of src/semver.go (lines 39-49): the four
`Sprintf` branches selected by which of PreRelease/Build are non-empty,
each modelled as literal concatenation of its format pieces. -/
def Version.String (v : Version) : GoStr :=
  let hasPreRelease : Bool := v.PreRelease != ""
  let hasBuild : Bool := v.Build != ""
  if hasPreRelease && hasBuild then
    goItoa v.Major ++ "." ++ goItoa v.Minor ++ "." ++ goItoa v.Patch ++ "-" ++
      v.PreRelease ++ "+" ++ v.Build
  else if hasPreRelease && !hasBuild then
    goItoa v.Major ++ "." ++ goItoa v.Minor ++ "." ++ goItoa v.Patch ++ "-" ++ v.PreRelease
  else if !hasPreRelease && hasBuild then
    goItoa v.Major ++ "." ++ goItoa v.Minor ++ "." ++ goItoa v.Patch ++ "+" ++ v.Build
  else
    goItoa v.Major ++ "." ++ goItoa v.Minor ++ "." ++ goItoa v.Patch

/-- Embeds `Version.Short` of src/semver.go (lines 60-65): like `String`
but build metadata is always omitted. -/
def Version.Short (v : Version) : GoStr :=
  if v.PreRelease != "" then
    goItoa v.Major ++ "." ++ goItoa v.Minor ++ "." ++ goItoa v.Patch ++ "-" ++ v.PreRelease
  else
    goItoa v.Major ++ "." ++ goItoa v.Minor ++ "." ++ goItoa v.Patch

/-- Embeds `Version.Core` of src/semver.go (lines 76-78): only
major.minor.patch. -/
def Version.Core (v : Version) : GoStr :=
  goItoa v.Major ++ "." ++ goItoa v.Minor ++ "." ++ goItoa v.Patch

/-- The rendering grammar from the spec (§4.1): core is
`MAJOR.MINOR.PATCH` in decimal non-padded form. -/
def render_core_spec (v : Version) : GoStr :=
  goItoa v.Major ++ "." ++ goItoa v.Minor ++ "." ++ goItoa v.Patch

/-- The spec's short form: core plus `-PRERELEASE` iff non-empty, build
always omitted. -/
def render_short_spec (v : Version) : GoStr :=
  render_core_spec v ++ (if v.PreRelease ≠ "" then "-" ++ v.PreRelease else "")

/-- The spec's full form: `MAJOR.MINOR.PATCH[-PRERELEASE][+BUILD]`,
each bracketed part present iff its field is non-empty. -/
def render_full_spec (v : Version) : GoStr :=
  render_core_spec v ++ (if v.PreRelease ≠ "" then "-" ++ v.PreRelease else "") ++
    (if v.Build ≠ "" then "+" ++ v.Build else "")

theorem goStr_ext {a b : String} (h : a.data = b.data) : a = b := by
  cases a; cases b; simp at h; rw [h]

theorem goStr_append_assoc (a b c : String) : a ++ b ++ c = a ++ (b ++ c) := by
  apply goStr_ext; simp

theorem string_eq_render_full_spec (v : Version) : v.String = render_full_spec v := by
  unfold Version.String render_full_spec render_core_spec
  by_cases hp : v.PreRelease = "" <;> by_cases hb : v.Build = "" <;>
    simp [hp, hb, goStr_append_assoc, String.append_empty]

theorem short_eq_render_short_spec (v : Version) : v.Short = render_short_spec v := by
  unfold Version.Short render_short_spec render_core_spec
  by_cases hp : v.PreRelease = "" <;>
    simp [hp, goStr_append_assoc, String.append_empty]

theorem core_eq_render_core_spec (v : Version) : v.Core = render_core_spec v := rfl

example : Version.String ⟨1, 0, 0, "beta", "0002"⟩ = "1.0.0-beta+0002" := by decide
example : Version.Short ⟨1, 0, 0, "beta", "0002"⟩ = "1.0.0-beta" := by decide
example : Version.Core ⟨1, 0, 0, "beta", "0002"⟩ = "1.0.0" := by decide

/-! ### VCS metadata extraction -/

/-- Embeds `Commit` of src/commit_hash.go (lines 14-43).  The
`debug.ReadBuildInfo` environment is abstracted as the pair of its `ok`
result and the list of key/value build settings; the loop over the
settings and the switch on `"vcs.modified"` / `"vcs.revision"` (with the
7-character truncation of the revision) are folded left over that list,
and the final return chain is reproduced verbatim, including the outer
`commitHash != "" && dirtyWorkingDirectory` guard with its nested
re-test of `dirtyWorkingDirectory`. -/
def CommitFrom (ok : Bool) (settings : List (GoStr × GoStr)) : GoStr :=
  let st : GoStr × Bool :=
    if ok then
      settings.foldl (fun acc s =>
        if s.1 = "vcs.modified" then (acc.1, s.2 = "true")
        else if s.1 = "vcs.revision" then
          (if s.2.length > 7 then (s.2.take 7, acc.2) else (s.2, acc.2))
        else acc) ("", false)
    else ("", false)
  let commitHash := st.1
  let dirtyWorkingDirectory := st.2
  if commitHash ≠ "" ∧ dirtyWorkingDirectory then
    if dirtyWorkingDirectory then commitHash ++ "-dirty"
    else commitHash
  else if dirtyWorkingDirectory then "dirty"
  else ""

/-- Embeds the variant `Commit` of src/unnamed/part_000 (lines 14-40),
which tracks the `vcs.modified` value as a raw string and returns the
bare short hash when the working directory is clean. -/
def CommitFromVariant (ok : Bool) (settings : List (GoStr × GoStr)) : GoStr :=
  let st : GoStr × GoStr :=
    if ok then
      settings.foldl (fun acc s =>
        if s.1 = "vcs.modified" then (acc.1, s.2)
        else if s.1 = "vcs.revision" then
          (if s.2.length > 7 then (s.2.take 7, acc.2) else (s.2, acc.2))
        else acc) ("", "")
    else ("", "")
  let commitHash := st.1
  let dirtyWorkingDirectory := st.2
  if commitHash ≠ "" ∧ dirtyWorkingDirectory ≠ "" then commitHash ++ "-dirty"
  else if commitHash ≠ "" then commitHash
  else if dirtyWorkingDirectory ≠ "" then "*-dirty"
  else ""

example :
    CommitFromVariant true [("vcs.revision", "0123456789abcdef")] = "0123456" := by decide
example :
    CommitFromVariant true [("vcs.revision", "0123456789abcdef"), ("vcs.modified", "false")] =
      "0123456-dirty" := by decide
example :
    CommitFrom true [("vcs.revision", "0123456789abcdef"), ("vcs.modified", "true")] =
      "0123456-dirty" := by decide

/-! ### The claims -/

/-- C1: for all versions a and b, `Compare` returns a value in
{-1, 0, +1} computed by the staged algorithm of the spec — Major, Minor,
Patch numerically in order with short-circuiting, then the pre-release
rule (numeric/numeric compares numerically, exactly one numeric side is
strictly lower, neither-numeric compares byte-wise lexically, then the
length tie-break) — formalised by `compare_spec`, which is written from
the spec's words. -/
theorem C1_compare_staged_algorithm (a b : Version) :
    (Version.Compare a b = -1 ∨ Version.Compare a b = 0 ∨ Version.Compare a b = 1) ∧
    Version.Compare a b = compare_spec a b :=
  ⟨compare_range a b, (compare_spec_eq a b).symm⟩

/-- C2: the comparator is antisymmetric — `Compare a b = -(Compare b a)`
for all versions — and in particular `Compare a a = 0`. -/
theorem C2_compare_antisymmetry :
    (∀ a b : Version, Version.Compare a b = -(Version.Compare b a)) ∧
    (∀ a : Version, Version.Compare a a = 0) :=
  ⟨isCmp_compare.1, fun a => isCmp_compare.cmp_refl a⟩

/-- C3: the precedence order induced by `Compare` is transitive:
`Compare a b ≤ 0` and `Compare b c ≤ 0` imply `Compare a c ≤ 0`. -/
theorem C3_compare_transitivity (a b c : Version)
    (h1 : Version.Compare a b ≤ 0) (h2 : Version.Compare b c ≤ 0) :
    Version.Compare a c ≤ 0 :=
  isCmp_compare.cmp_le_trans h1 h2

theorem C3_compare_transitivity_witness :
    Version.Compare ⟨1, 0, 0, "alpha", ""⟩ ⟨1, 0, 0, "beta", ""⟩ ≤ 0 ∧
    Version.Compare ⟨1, 0, 0, "beta", ""⟩ ⟨1, 0, 0, "", ""⟩ ≤ 0 ∧
    Version.Compare ⟨1, 0, 0, "alpha", ""⟩ ⟨1, 0, 0, "", ""⟩ ≤ 0 :=
  ⟨by decide, by decide,
   C3_compare_transitivity ⟨1, 0, 0, "alpha", ""⟩ ⟨1, 0, 0, "beta", ""⟩
     ⟨1, 0, 0, "", ""⟩ (by decide) (by decide)⟩

/-- C4: a version with empty PreRelease has strictly higher precedence
than any version with the same core triple and a non-empty PreRelease:
`Compare` returns +1 from the normal release's side and -1 from the
pre-release's side, whatever the Build fields are. -/
theorem C4_normal_outranks_prerelease (M m p : Int) (pre B B' : String)
    (h : pre ≠ "") :
    Version.Compare ⟨M, m, p, "", B⟩ ⟨M, m, p, pre, B'⟩ = 1 ∧
    Version.Compare ⟨M, m, p, pre, B'⟩ ⟨M, m, p, "", B⟩ = -1 :=
  compare_normal_vs_pre M m p pre B B' h

theorem C4_normal_outranks_prerelease_witness :
    Version.Compare ⟨1, 0, 0, "", "b1"⟩ ⟨1, 0, 0, "alpha", "b2"⟩ = 1 ∧
    Version.Compare ⟨1, 0, 0, "alpha", "b2"⟩ ⟨1, 0, 0, "", "b1"⟩ = -1 :=
  C4_normal_outranks_prerelease 1 0 0 "alpha" "b1" "b2" (by decide)

/-- C5: Build is never consulted by the comparator: two versions that
agree on Major, Minor, Patch and PreRelease compare as 0, and replacing
either input's Build by anything leaves the result of `Compare`
unchanged. -/
theorem C5_build_irrelevance :
    (∀ a b : Version, a.Major = b.Major → a.Minor = b.Minor →
      a.Patch = b.Patch → a.PreRelease = b.PreRelease →
      Version.Compare a b = 0) ∧
    (∀ (a b : Version) (B B' : String),
      Version.Compare ⟨a.Major, a.Minor, a.Patch, a.PreRelease, B⟩
        ⟨b.Major, b.Minor, b.Patch, b.PreRelease, B'⟩ = Version.Compare a b) :=
  ⟨fun _ _ h1 h2 h3 h4 => compare_eq_zero_of_fields h1 h2 h3 h4,
   fun a b B B' => compare_ignores_build a b B B'⟩

theorem C5_build_irrelevance_witness :
    Version.Compare ⟨1, 2, 3, "rc.1", "b1"⟩ ⟨1, 2, 3, "rc.1", "b2"⟩ = 0 :=
  C5_build_irrelevance.1 ⟨1, 2, 3, "rc.1", "b1"⟩ ⟨1, 2, 3, "rc.1", "b2"⟩
    rfl rfl rfl rfl

/-- C7: `Equal` is true exactly when all five fields are literally
equal, and it diverges from the comparator: identical first four fields
with different Build gives `Equal = false` while `Compare = 0`. -/
theorem C7_content_equal (a b : Version) :
    (Version.Equal a b = true ↔
      a.Major = b.Major ∧ a.Minor = b.Minor ∧ a.Patch = b.Patch ∧
        a.PreRelease = b.PreRelease ∧ a.Build = b.Build) ∧
    (a.Major = b.Major → a.Minor = b.Minor → a.Patch = b.Patch →
      a.PreRelease = b.PreRelease → a.Build ≠ b.Build →
      Version.Equal a b = false ∧ Version.Compare a b = 0) := by
  constructor
  · simp [Version.Equal, and_assoc]
  · intro h1 h2 h3 h4 h5
    refine ⟨?_, compare_eq_zero_of_fields h1 h2 h3 h4⟩
    simp [Version.Equal, h1, h2, h3, h4, h5]

theorem C7_content_equal_witness :
    Version.Equal ⟨1, 0, 0, "", "b1"⟩ ⟨1, 0, 0, "", "b2"⟩ = false ∧
    Version.Compare ⟨1, 0, 0, "", "b1"⟩ ⟨1, 0, 0, "", "b2"⟩ = 0 :=
  (C7_content_equal ⟨1, 0, 0, "", "b1"⟩ ⟨1, 0, 0, "", "b2"⟩).2
    rfl rfl rfl rfl (by decide)

/-- C8: the three renderers are pure functions of the fields producing
exactly the grammar MAJOR.MINOR.PATCH[-PRERELEASE][+BUILD] (decimal
non-padded integers, verbatim PreRelease/Build): `String` includes the
bracketed parts iff the corresponding field is non-empty, `Short`
always drops Build, `Core` is the bare triple; on (1,0,0,"beta","0002")
they yield "1.0.0-beta+0002", "1.0.0-beta" and "1.0.0". -/
theorem C8_rendering_grammar (v : Version) :
    v.String = render_full_spec v ∧ v.Short = render_short_spec v ∧
    v.Core = render_core_spec v ∧
    Version.String ⟨1, 0, 0, "beta", "0002"⟩ = "1.0.0-beta+0002" ∧
    Version.Short ⟨1, 0, 0, "beta", "0002"⟩ = "1.0.0-beta" ∧
    Version.Core ⟨1, 0, 0, "beta", "0002"⟩ = "1.0.0" :=
  ⟨string_eq_render_full_spec v, short_eq_render_short_spec v,
   core_eq_render_core_spec v, by decide, by decide, by decide⟩

/-- C9: the comparator is a total deterministic function on every
constructible Version value — it always lands in {-1, 0, +1}, there is
no error path — and an identifier on which the integer-parse capability
test fails is simply routed into the byte-wise lexical branch. -/
theorem C9_comparator_totality (a b : Version) (x y : List Char)
    (hx : atoi x = none) (hy : atoi y = none) :
    (Version.Compare a b = -1 ∨ Version.Compare a b = 0 ∨ Version.Compare a b = 1) ∧
    cmpIdentifier x y = cmpCharList x y :=
  ⟨compare_range a b, cmpIdentifier_none_none hx hy⟩

theorem C9_comparator_totality_witness :
    atoi "alpha".data = none ∧ atoi "be+ta".data = none ∧
    (Version.Compare ⟨1, 0, 0, "..", ""⟩ ⟨1, 0, 0, "1a.", ""⟩ = -1 ∨
      Version.Compare ⟨1, 0, 0, "..", ""⟩ ⟨1, 0, 0, "1a.", ""⟩ = 0 ∨
      Version.Compare ⟨1, 0, 0, "..", ""⟩ ⟨1, 0, 0, "1a.", ""⟩ = 1) ∧
    cmpIdentifier "alpha".data "be+ta".data = cmpCharList "alpha".data "be+ta".data :=
  ⟨by decide, by decide,
   (C9_comparator_totality ⟨1, 0, 0, "..", ""⟩ ⟨1, 0, 0, "1a.", ""⟩
     "alpha".data "be+ta".data (by decide) (by decide)).1,
   (C9_comparator_totality ⟨1, 0, 0, "..", ""⟩ ⟨1, 0, 0, "1a.", ""⟩
     "alpha".data "be+ta".data (by decide) (by decide)).2⟩

theorem ne_empty_data {s : String} (h : s ≠ "") : s.data ≠ [] := by
  intro hd
  exact h (goStr_ext (by rw [hd]))

theorem no_dot_of_digits {l : List Char} (h : l.all Char.isDigit = true) :
    '.' ∉ l := by
  intro hm
  have hdig := List.all_eq_true.mp h _ hm
  exact absurd hdig (by decide)

/-- C10: the integer-capability test in the pre-release walk is Go
machine-int parsing: an all-digit identifier whose value exceeds the
64-bit int range fails `Atoi` and is treated as non-numeric, so against
another all-digit identifier it is compared lexically when that one is
also out of range, and ranked strictly higher (numeric loses to
non-numeric) when that one is in range. -/
theorem C10_machine_int_capability (M m p : Int) (B B' : String) (s t : String)
    (hs : s ≠ "") (ht : t ≠ "")
    (hsd : s.data.all Char.isDigit = true) (htd : t.data.all Char.isDigit = true)
    (hbig : 2 ^ 63 ≤ digitsVal s.data) :
    atoi s.data = none ∧
    (digitsVal t.data < 2 ^ 63 →
      Version.Compare ⟨M, m, p, t, B⟩ ⟨M, m, p, s, B'⟩ = -1) ∧
    (2 ^ 63 ≤ digitsVal t.data →
      Version.Compare ⟨M, m, p, t, B⟩ ⟨M, m, p, s, B'⟩ = cmpCharList t.data s.data) := by
  have hsnil := ne_empty_data hs
  have htnil := ne_empty_data ht
  have hs_none : atoi s.data = none := by
    rw [atoi_digits s.data hsnil hsd, if_neg (by omega)]
  have hsplit :
      Version.Compare ⟨M, m, p, t, B⟩ ⟨M, m, p, s, B'⟩ =
        cmpIdentifier t.data s.data := by
    rw [compare_pre_pre M m p t s B B' ht hs,
      splitDot_no_dot t.data htnil (no_dot_of_digits htd),
      splitDot_no_dot s.data hsnil (no_dot_of_digits hsd),
      cmpIdentifierList_singleton]
  refine ⟨hs_none, fun hsmall => ?_, fun hbig2 => ?_⟩
  · rw [hsplit,
      cmpIdentifier_some_none
        (by rw [atoi_digits t.data htnil htd, if_pos hsmall]) hs_none]
  · rw [hsplit,
      cmpIdentifier_none_none
        (by rw [atoi_digits t.data htnil htd, if_neg (by omega)]) hs_none]

theorem C10_machine_int_capability_witness :
    ("9223372036854775808" : String) ≠ "" ∧
    "9223372036854775808".data.all Char.isDigit = true ∧
    ("42" : String) ≠ "" ∧ "42".data.all Char.isDigit = true ∧
    2 ^ 63 ≤ digitsVal "9223372036854775808".data ∧
    digitsVal "42".data < 2 ^ 63 ∧
    atoi "9223372036854775808".data = none ∧
    Version.Compare ⟨1, 0, 0, "42", ""⟩ ⟨1, 0, 0, "9223372036854775808", ""⟩ = -1 := by
  refine ⟨by decide, by decide, by decide, by decide, by decide, by decide, ?_, ?_⟩
  · exact (C10_machine_int_capability 1 0 0 "" "" "9223372036854775808" "42"
      (by decide) (by decide) (by decide) (by decide) (by decide)).1
  · exact (C10_machine_int_capability 1 0 0 "" "" "9223372036854775808" "42"
      (by decide) (by decide) (by decide) (by decide) (by decide)).2.1 (by decide)

/-- C6: the embedded `Commit` of src/commit_hash.go, evaluated on build
info carrying a revision id together with a clean working directory
(`vcs.modified` = "false", or no modified setting at all), returns the
empty string even though provenance is available — the outer guard
requires the dirty flag and the nested `return commitHash` is dead
code — contradicting the claim and the function's own documentation;
the variant in src/unnamed/part_000 does return the short id. -/
theorem C6_commit_clean_revision_returns_empty :
    CommitFrom true [("vcs.revision", "0123456789abcdef"), ("vcs.modified", "false")] = "" ∧
    CommitFrom true [("vcs.revision", "0123456789abcdef")] = "" ∧
    CommitFromVariant true [("vcs.revision", "0123456789abcdef")] = "0123456" :=
  ⟨by decide, by decide, by decide⟩
